import Mathlib

/-!
Shallow embedding of `src/csvoutput.ino` (ESP32 firmware: AC current RMS
pipeline, temperature-driven heater hysteresis, CSV persistence).

Conventions:
* `double`/`float` arithmetic is idealised: temperatures are `ℚ` (only
  compared against the exactly-representable thresholds 32.0 and 37.0),
  the current pipeline is `ℝ` (it takes a square root).
* `unsigned long` timestamps are `ℕ`; `micros()`/`millis()` are modelled as
  monotone counters, so the wraparound-safe `act_time - time_ant` is `ℕ`
  truncated subtraction.
* `digitalWrite(RELAY_PIN, HIGH)` is modelled as writing `true`,
  `LOW` as writing `false`.
-/

namespace CsvOutput

/-- Line 7: `const float TEMP_LOW_THRESHOLD = 32.0;`. -/
def TEMP_LOW_THRESHOLD : ℚ := 32

/-- Line 8: `const float TEMP_HIGH_THRESHOLD = 37.0;`. -/
def TEMP_HIGH_THRESHOLD : ℚ := 37

/-- Observable effects of one `controlHeater` call: the updated
`heaterState` global, the optional `digitalWrite` to `RELAY_PIN`
(`some level`, `none` when no write happens), and the optional
`Serial.println` transition message. -/
structure HeaterEffects where
  newState : Bool
  relayWrite : Option Bool
  message : Option String
deriving Repr, DecidableEq

/-- Lines 82-99: `controlHeater(float temperature)`.  Hysteresis control:
below 32 turn the heater on (write HIGH, set state, log) only if it was
off; above 37 turn it off (write LOW, clear state, log) only if it was on;
otherwise do nothing. -/
def controlHeater (temperature : ℚ) (heaterState : Bool) : HeaterEffects :=
  if temperature < TEMP_LOW_THRESHOLD then
    if !heaterState then
      { newState := true, relayWrite := some true,
        message := some ">>> Heater TURNED ON (Temp < 32C)" }
    else
      { newState := heaterState, relayWrite := none, message := none }
  else if temperature > TEMP_HIGH_THRESHOLD then
    if heaterState then
      { newState := false, relayWrite := some false,
        message := some ">>> Heater TURNED OFF (Temp > 37C)" }
    else
      { newState := heaterState, relayWrite := none, message := none }
  else
    { newState := heaterState, relayWrite := none, message := none }

/-- State update of one actuator tick (the `heaterState` global after
`controlHeater`). -/
def stepHeater (s : Bool) (t : ℚ) : Bool := (controlHeater t s).newState

/-- The `heaterState` global after the first `i` readings of `temps` have
been processed, starting from the initial `heaterState = false` (IDLE). -/
def heaterStateAt (temps : List ℚ) (i : ℕ) : Bool :=
  (temps.take i).foldl stepHeater false

/-- The list of `heaterState` values observed after each reading in turn. -/
def heaterStates (s0 : Bool) : List ℚ → List Bool
  | [] => []
  | t :: ts => stepHeater s0 t :: heaterStates (stepHeater s0 t) ts

/-- Line 255 of `setup()`: `digitalWrite(RELAY_PIN, HIGH);  // Start OFF` —
the level driven onto the relay pin at the end of initialization. -/
def setupRelayLevel : Bool := true

/-- Line 256 of `setup()`: `heaterState = false;`. -/
def setupHeaterState : Bool := false

theorem heaterStateAt_succ (temps : List ℚ) (i : ℕ) (t : ℚ)
    (ht : temps[i]? = some t) :
    heaterStateAt temps (i + 1) = stepHeater (heaterStateAt temps i) t := by
  unfold heaterStateAt
  rw [List.take_succ, ht]
  simp [List.foldl_append]

/-- C1. For every temperature sequence fed one reading per tick starting
from IDLE: IDLE→HEATING happens only on a reading strictly below 32,
HEATING→IDLE only on a reading strictly above 37, and any reading in the
closed band [32, 37] leaves the state unchanged. -/
theorem controlHeater_hysteresis (temps : List ℚ) (i : ℕ) (t : ℚ)
    (ht : temps[i]? = some t) :
    ((heaterStateAt temps i = false ∧ heaterStateAt temps (i + 1) = true) →
      t < TEMP_LOW_THRESHOLD) ∧
    ((heaterStateAt temps i = true ∧ heaterStateAt temps (i + 1) = false) →
      TEMP_HIGH_THRESHOLD < t) ∧
    ((TEMP_LOW_THRESHOLD ≤ t ∧ t ≤ TEMP_HIGH_THRESHOLD) →
      heaterStateAt temps (i + 1) = heaterStateAt temps i) := by
  rw [heaterStateAt_succ temps i t ht]
  unfold stepHeater controlHeater
  rcases heaterStateAt temps i with _ | _ <;>
    refine ⟨?_, ?_, ?_⟩ <;> split_ifs <;>
    simp_all

theorem controlHeater_hysteresis_witness :
    (([31] : List ℚ)[0]? = some 31) ∧
    (((heaterStateAt [31] 0 = false ∧ heaterStateAt [31] (0 + 1) = true) →
        (31 : ℚ) < TEMP_LOW_THRESHOLD) ∧
      ((heaterStateAt [31] 0 = true ∧ heaterStateAt [31] (0 + 1) = false) →
        TEMP_HIGH_THRESHOLD < (31 : ℚ)) ∧
      (((TEMP_LOW_THRESHOLD ≤ (31 : ℚ) ∧ (31 : ℚ) ≤ TEMP_HIGH_THRESHOLD)) →
        heaterStateAt [31] (0 + 1) = heaterStateAt [31] 0)) :=
  ⟨by decide, controlHeater_hysteresis [31] 0 31 (by decide)⟩

/-- C2 counterexample. The claim says the state stays IDLE at every epoch
of the sequence [30, 33, 35, 38, 34, 31]; but the very first reading 30 is
strictly below 32, so the code enters HEATING at the first epoch. -/
theorem scenario2_not_all_idle :
    heaterStates false [30, 33, 35, 38, 34, 31] ≠
      [false, false, false, false, false, false] := by decide

/-- C2 (amended). Starting from IDLE, the sequence [30, 33, 35, 38, 34, 31]
produces the states [HEATING, HEATING, HEATING, IDLE, IDLE, HEATING]:
30 < 32 enters HEATING, 33 and 35 are in the dead band, 38 > 37 exits to
IDLE, 34 is in the dead band, 31 < 32 re-enters HEATING. -/
theorem scenario2_states :
    heaterStates false [30, 33, 35, 38, 34, 31] =
      [true, true, true, false, false, true] := by decide

/-- C3 (code bug). At the end of `setup()` the state machine is IDLE
(`heaterState = false`), but the relay pin is driven HIGH — the level that
the IDLE→HEATING transition writes to energize the relay — whereas the
HEATING→IDLE (de-energize) transition writes LOW.  So the relay does not
start at the de-energized level, contradicting the `// Start OFF` comment
and the spec's initial state. -/
theorem setup_relay_level_mismatch :
    setupHeaterState = false ∧
    setupRelayLevel = true ∧
    (controlHeater 31 false).relayWrite = some true ∧
    (controlHeater 38 true).relayWrite = some false ∧
    setupRelayLevel ≠ false := by decide

/-- C7. In a tick where `controlHeater` leaves the state unchanged it
performs no relay write and emits no message; in a tick where the state
changes (an edge crossing) it performs exactly one relay write, at the new
state's level, and emits exactly one transition message. -/
theorem controlHeater_effects_iff_transition (t : ℚ) (s : Bool) :
    ((controlHeater t s).newState = s ↔
      ((controlHeater t s).relayWrite = none ∧
        (controlHeater t s).message = none)) ∧
    ((controlHeater t s).newState ≠ s →
      ((controlHeater t s).relayWrite = some (controlHeater t s).newState ∧
        ((controlHeater t s).message).isSome = true)) := by
  unfold controlHeater
  rcases s with _ | _ <;> split_ifs <;> simp_all

theorem controlHeater_effects_iff_transition_witness :
    (((controlHeater 34 false).newState = false ↔
      ((controlHeater 34 false).relayWrite = none ∧
        (controlHeater 34 false).message = none)) ∧
    ((controlHeater 34 false).newState ≠ false →
      ((controlHeater 34 false).relayWrite =
          some (controlHeater 34 false).newState ∧
        ((controlHeater 34 false).message).isSome = true))) :=
  controlHeater_effects_iff_transition 34 false

/-! ## Current pipeline: sampler, RMS reducer, averager/reporter -/

/-- Line 33: `double v_bias = 1.64;`. -/
noncomputable def v_bias : ℝ := 1.64

/-- Line 43: `const unsigned long display_interval = 200;` (ms). -/
def display_interval : ℕ := 200

/-- The RMS window globals: line 19 `double quadratic_sum_rms = 0.0;` and
line 41 `unsigned long rms_sample_time_us = 0;`. -/
structure RMSWindow where
  quadratic_sum_rms : ℝ
  rms_sample_time_us : ℕ

/-- The averaging accumulator globals: line 23
`double accumulated_current = 0.0;` and line 25 `int accumulated_counter = 0;`. -/
structure Accum where
  accumulated_current : ℝ
  accumulated_counter : ℕ

/-- Lines 290-296 of `loop()`: when the elapsed time since the last sample
is at least 1000 µs, compute `Vinst = read_voltage() - v_bias`,
`Inst = Vinst * 20`, add `Inst * Inst * (difTime / 1000000.0)` to the
squared sum and `difTime` to the window's elapsed-time accumulator;
otherwise do nothing. -/
noncomputable def samplerStep (w : RMSWindow) (difTime : ℕ) (voltage : ℝ) :
    RMSWindow :=
  if 1000 ≤ difTime then
    let Vinst := voltage - v_bias
    let Inst := Vinst * 20
    { quadratic_sum_rms :=
        w.quadratic_sum_rms + Inst * Inst * ((difTime : ℝ) / 1000000),
      rms_sample_time_us := w.rms_sample_time_us + difTime }
  else w

/-- Line 299: `sqrt(quadratic_sum_rms / (rms_sample_time_us / 1000000.0))`. -/
noncomputable def computedRMS (w : RMSWindow) : ℝ :=
  Real.sqrt (w.quadratic_sum_rms / ((w.rms_sample_time_us : ℝ) / 1000000))

/-- Lines 298-305 of `loop()`: when the accumulated window time reaches
20000 µs, compute the RMS, clamp values strictly below 0.1 to exactly 0.0,
add the result to the averaging accumulator, bump its counter, and reset
both window fields to zero; otherwise leave window and accumulator
untouched. -/
noncomputable def reducerStep (w : RMSWindow) (acc : Accum) :
    RMSWindow × Accum :=
  if 20000 ≤ w.rms_sample_time_us then
    let Irms := computedRMS w
    let Irms := if Irms < 0.1 then 0 else Irms
    (⟨0, 0⟩,
      ⟨acc.accumulated_current + Irms, acc.accumulated_counter + 1⟩)
  else (w, acc)

/-- Lines 312-317 of `loop()`: `Iavg = 0.0; if (accumulated_counter > 0)
{ Iavg = accumulated_current / accumulated_counter; accumulated_current =
0.0; accumulated_counter = 0; }` — returns the reported average and the
accumulator afterwards.  The `count = 0` branch performs no division. -/
noncomputable def reporterDrain (acc : Accum) : ℝ × Accum :=
  if 0 < acc.accumulated_counter then
    (acc.accumulated_current / (acc.accumulated_counter : ℝ), ⟨0, 0⟩)
  else (0, acc)

/-- `n` consecutive drains of the accumulator. -/
noncomputable def drainIter : ℕ → Accum → Accum
  | 0, a => a
  | n + 1, a => drainIter n (reporterDrain a).2

/-! ## The control loop -/

/-- Full mutable state of the sketch relevant to the pipeline. -/
structure SysState where
  heaterState : Bool
  relayLevel : Bool
  window : RMSWindow
  acc : Accum
  time_ant : ℕ
  display_time : ℕ

/-- The per-iteration environment: `micros()`, `millis()`, the ADC voltage
and the temperature reading. -/
structure LoopInput where
  act_time : ℕ
  now : ℕ
  voltage : ℝ
  temperature : ℚ

/-- Lines 287-296: compute `difTime = act_time - time_ant`; when it reaches
1000 µs update `time_ant` and run the sampler accumulation. -/
noncomputable def loopSample (s : SysState) (inp : LoopInput) : SysState :=
  let difTime := inp.act_time - s.time_ant
  if 1000 ≤ difTime then
    { s with time_ant := inp.act_time,
             window := samplerStep s.window difTime inp.voltage }
  else s

/-- Lines 298-305: run the RMS reducer on the window and accumulator. -/
noncomputable def loopReduce (s : SysState) : SysState :=
  let wa := reducerStep s.window s.acc
  { s with window := wa.1, acc := wa.2 }

/-- Lines 308-336: every `display_interval` ms of `millis()` time, drain
the averaging accumulator, read the temperature, run `controlHeater`, and
emit/persist the record; returns the new state and the reported average
current (when the reporter fired). -/
noncomputable def loopReport (s : SysState) (inp : LoopInput) :
    SysState × Option ℝ :=
  if display_interval ≤ inp.now - s.display_time then
    let d := reporterDrain s.acc
    let h := controlHeater inp.temperature s.heaterState
    ({ s with display_time := inp.now, acc := d.2,
              heaterState := h.newState,
              relayLevel := (h.relayWrite).getD s.relayLevel }, some d.1)
  else (s, none)

/-- One iteration of `loop()` (lines 286-340): sampler, then reducer, then
reporter, in the source's order. -/
noncomputable def loopStep (s : SysState) (inp : LoopInput) :
    SysState × Option ℝ :=
  loopReport (loopReduce (loopSample s inp)) inp

/-- The state at the end of `setup()` (globals at lines 9-48 plus lines
254-256 and 283; `d0` is the value of `millis()` stored into
`display_time` at line 283). -/
noncomputable def initState (d0 : ℕ) : SysState :=
  { heaterState := setupHeaterState, relayLevel := setupRelayLevel,
    window := { quadratic_sum_rms := 0, rms_sample_time_us := 0 },
    acc := { accumulated_current := 0, accumulated_counter := 0 },
    time_ant := 0, display_time := d0 }

/-- States reachable by running `loop()` any number of times after
`setup()`. -/
inductive Reachable : SysState → Prop
  | init (d0 : ℕ) : Reachable (initState d0)
  | step (s : SysState) (inp : LoopInput) :
      Reachable s → Reachable (loopStep s inp).1

/-- Invariant carried by the pipeline accumulators. -/
def AccInv (s : SysState) : Prop :=
  0 ≤ s.window.quadratic_sum_rms ∧
  0 ≤ s.acc.accumulated_current ∧
  (s.acc.accumulated_counter = 0 → s.acc.accumulated_current = 0)

theorem samplerStep_nonneg (w : RMSWindow) (difTime : ℕ) (voltage : ℝ)
    (hw : 0 ≤ w.quadratic_sum_rms) :
    0 ≤ (samplerStep w difTime voltage).quadratic_sum_rms := by
  unfold samplerStep
  split
  · have h1 : (0 : ℝ) ≤ (voltage - v_bias) * 20 * ((voltage - v_bias) * 20) :=
      mul_self_nonneg _
    have h2 : (0 : ℝ) ≤ (difTime : ℝ) / 1000000 := by positivity
    simp only
    nlinarith
  · exact hw

theorem clamped_nonneg (w : RMSWindow) :
    0 ≤ (if computedRMS w < 0.1 then (0 : ℝ) else computedRMS w) := by
  split
  · exact le_refl 0
  · exact Real.sqrt_nonneg _

theorem accInv_loopSample (s : SysState) (inp : LoopInput) (h : AccInv s) :
    AccInv (loopSample s inp) := by
  simp only [loopSample]
  split
  · exact ⟨samplerStep_nonneg _ _ _ h.1, h.2.1, h.2.2⟩
  · exact h

theorem accInv_loopReduce (s : SysState) (h : AccInv s) :
    AccInv (loopReduce s) := by
  by_cases hc : 20000 ≤ s.window.rms_sample_time_us
  · simp only [loopReduce, reducerStep, if_pos hc]
    exact ⟨le_refl 0, add_nonneg h.2.1 (clamped_nonneg _),
      fun hc' => (Nat.succ_ne_zero _ hc').elim⟩
  · simp only [loopReduce, reducerStep, if_neg hc]
    exact h

theorem accInv_loopReport (s : SysState) (inp : LoopInput) (h : AccInv s) :
    AccInv (loopReport s inp).1 := by
  by_cases hf : display_interval ≤ inp.now - s.display_time
  · simp only [loopReport, if_pos hf]
    by_cases hc : 0 < s.acc.accumulated_counter
    · simp only [reporterDrain, if_pos hc]
      exact ⟨h.1, le_refl 0, fun _ => rfl⟩
    · simp only [reporterDrain, if_neg hc]
      exact ⟨h.1, h.2.1, h.2.2⟩
  · simp only [loopReport, if_neg hf]
    exact h

theorem reachable_accInv (s : SysState) (h : Reachable s) : AccInv s := by
  induction h with
  | init d0 => exact ⟨le_refl 0, le_refl 0, fun _ => rfl⟩
  | step s' inp _ ih =>
      exact accInv_loopReport _ _ (accInv_loopReduce _ (accInv_loopSample _ _ ih))

theorem loopSample_display_time (s : SysState) (inp : LoopInput) :
    (loopSample s inp).display_time = s.display_time := by
  simp only [loopSample]
  split <;> rfl

theorem loopReduce_display_time (s : SysState) :
    (loopReduce s).display_time = s.display_time := rfl

theorem reporterDrain_nonneg (acc : Accum)
    (h : 0 ≤ acc.accumulated_current) : 0 ≤ (reporterDrain acc).1 := by
  unfold reporterDrain
  split
  · exact div_nonneg h (Nat.cast_nonneg _)
  · exact le_refl 0

/-- C8. On a sampler invocation with elapsed time ≥ 1000 µs, the squared
sum grows by `((voltage - v_bias) * 20)² * (difTime / 1000000)` — the
instantaneous current squared, weighted by the actual measured elapsed
time — and the window's elapsed-time accumulator grows by `difTime`; with
elapsed time below 1000 µs nothing is accumulated. -/
theorem sampler_accumulates (w : RMSWindow) (difTime : ℕ) (voltage : ℝ) :
    (1000 ≤ difTime →
      (samplerStep w difTime voltage).quadratic_sum_rms =
        w.quadratic_sum_rms +
          ((voltage - v_bias) * 20) ^ 2 * ((difTime : ℝ) / 1000000) ∧
      (samplerStep w difTime voltage).rms_sample_time_us =
        w.rms_sample_time_us + difTime) ∧
    (difTime < 1000 → samplerStep w difTime voltage = w) := by
  constructor
  · intro h
    simp only [samplerStep, if_pos h]
    exact ⟨by ring, trivial⟩
  · intro h
    simp only [samplerStep, if_neg (by omega : ¬ 1000 ≤ difTime)]

theorem sampler_accumulates_witness :
    ((1000 ≤ (1000 : ℕ) →
      (samplerStep ⟨0, 0⟩ 1000 2).quadratic_sum_rms =
        (⟨0, 0⟩ : RMSWindow).quadratic_sum_rms +
          (((2 : ℝ) - v_bias) * 20) ^ 2 * (((1000 : ℕ) : ℝ) / 1000000) ∧
      (samplerStep ⟨0, 0⟩ 1000 2).rms_sample_time_us =
        (⟨0, 0⟩ : RMSWindow).rms_sample_time_us + 1000) ∧
    ((1000 : ℕ) < 1000 → samplerStep ⟨0, 0⟩ 1000 2 = ⟨0, 0⟩)) :=
  sampler_accumulates ⟨0, 0⟩ 1000 2

/-- C4. When the reducer fires (window time ≥ 20000 µs), the value added
to the averaging accumulator is exactly 0 when the computed RMS
`sqrt(quadratic_sum_rms / (rms_sample_time_us / 1000000))` is strictly
below 0.1, and the computed RMS unmodified otherwise; the count rises by
one. -/
theorem reducer_noise_floor (w : RMSWindow) (acc : Accum)
    (hfire : 20000 ≤ w.rms_sample_time_us) :
    (reducerStep w acc).2.accumulated_current =
      acc.accumulated_current +
        (if computedRMS w < 0.1 then 0 else computedRMS w) ∧
    (reducerStep w acc).2.accumulated_counter =
      acc.accumulated_counter + 1 := by
  simp only [reducerStep, if_pos hfire]
  exact ⟨trivial, trivial⟩

theorem reducer_noise_floor_witness :
    (20000 ≤ (⟨0, 20000⟩ : RMSWindow).rms_sample_time_us) ∧
    ((reducerStep ⟨0, 20000⟩ ⟨0, 0⟩).2.accumulated_current =
      (⟨0, 0⟩ : Accum).accumulated_current +
        (if computedRMS ⟨0, 20000⟩ < 0.1 then 0 else computedRMS ⟨0, 20000⟩) ∧
    (reducerStep ⟨0, 20000⟩ ⟨0, 0⟩).2.accumulated_counter =
      (⟨0, 0⟩ : Accum).accumulated_counter + 1) :=
  ⟨by decide, reducer_noise_floor ⟨0, 20000⟩ ⟨0, 0⟩ (by decide)⟩

/-- C5. Draining the accumulator with a zero count reports exactly 0.0,
leaves the accumulator unchanged (the division branch is never entered),
and doing so any number of consecutive times still reports 0.0 every
time. -/
theorem reporter_empty_drain (acc : Accum)
    (h : acc.accumulated_counter = 0) (n : ℕ) :
    (reporterDrain acc).1 = 0 ∧ drainIter n acc = acc ∧
      (reporterDrain (drainIter n acc)).1 = 0 := by
  have hd : reporterDrain acc = (0, acc) := by
    simp only [reporterDrain,
      if_neg (by omega : ¬ 0 < acc.accumulated_counter)]
  have hiter : ∀ m, drainIter m acc = acc := by
    intro m
    induction m with
    | zero => rfl
    | succ k ih =>
        simp only [drainIter, hd]
        exact ih
  exact ⟨by rw [hd], hiter n, by rw [hiter n, hd]⟩

theorem reporter_empty_drain_witness :
    ((⟨0, 0⟩ : Accum).accumulated_counter = 0) ∧
    ((reporterDrain ⟨0, 0⟩).1 = 0 ∧ drainIter 2 ⟨0, 0⟩ = ⟨0, 0⟩ ∧
      (reporterDrain (drainIter 2 ⟨0, 0⟩)).1 = 0) :=
  ⟨rfl, reporter_empty_drain ⟨0, 0⟩ rfl 2⟩

/-- C6. On every reporter firing from a reachable state, the averaging
accumulator ends with sum and count both zero: the `count > 0` branch
resets both, and in the `count = 0` branch the reachability invariant
already forces the sum to be zero. -/
theorem reporter_resets_accumulator (s : SysState) (inp : LoopInput)
    (hr : Reachable s)
    (hfire : display_interval ≤ inp.now - s.display_time) :
    (loopStep s inp).1.acc.accumulated_current = 0 ∧
    (loopStep s inp).1.acc.accumulated_counter = 0 := by
  have hinv : AccInv (loopReduce (loopSample s inp)) :=
    accInv_loopReduce _ (accInv_loopSample _ _ (reachable_accInv s hr))
  have hdt : (loopReduce (loopSample s inp)).display_time = s.display_time := by
    rw [loopReduce_display_time, loopSample_display_time]
  have hfire2 : display_interval ≤
      inp.now - (loopReduce (loopSample s inp)).display_time := by
    rw [hdt]
    exact hfire
  show (loopReport (loopReduce (loopSample s inp)) inp).1.acc.accumulated_current = 0 ∧
    (loopReport (loopReduce (loopSample s inp)) inp).1.acc.accumulated_counter = 0
  simp only [loopReport, if_pos hfire2]
  by_cases hc : 0 < (loopReduce (loopSample s inp)).acc.accumulated_counter
  · simp only [reporterDrain, if_pos hc]
    exact ⟨trivial, trivial⟩
  · simp only [reporterDrain, if_neg hc]
    have h0 : (loopReduce (loopSample s inp)).acc.accumulated_counter = 0 := by
      omega
    exact ⟨hinv.2.2 h0, h0⟩

theorem reporter_resets_accumulator_witness :
    Reachable (initState 0) ∧
    display_interval ≤ (LoopInput.mk 0 200 0 0).now - (initState 0).display_time ∧
    ((loopStep (initState 0) (LoopInput.mk 0 200 0 0)).1.acc.accumulated_current = 0 ∧
      (loopStep (initState 0) (LoopInput.mk 0 200 0 0)).1.acc.accumulated_counter = 0) :=
  ⟨Reachable.init 0, by decide,
    reporter_resets_accumulator _ _ (Reachable.init 0) (by decide)⟩

/-- C10. From any reachable state: the reducer's divisor
`rms_sample_time_us / 1000000` is strictly positive whenever it fires
(window time ≥ 20000 µs), the accumulated sum of squares is nonnegative,
the reducer never decreases the averaging accumulator (every RMS value
added is ≥ 0), the accumulator itself is nonnegative, and every reported
average current is ≥ 0. -/
theorem pipeline_nonneg (s : SysState) (inp : LoopInput) (hr : Reachable s) :
    (20000 ≤ s.window.rms_sample_time_us →
      0 < ((s.window.rms_sample_time_us : ℝ) / 1000000)) ∧
    0 ≤ s.window.quadratic_sum_rms ∧
    s.acc.accumulated_current ≤
      (reducerStep s.window s.acc).2.accumulated_current ∧
    0 ≤ s.acc.accumulated_current ∧
    0 ≤ ((loopStep s inp).2.getD 0) := by
  have hinv := reachable_accInv s hr
  refine ⟨?_, hinv.1, ?_, hinv.2.1, ?_⟩
  · intro h
    have h1 : (0 : ℝ) < (s.window.rms_sample_time_us : ℝ) := by
      have h2 : (0 : ℕ) < s.window.rms_sample_time_us := by omega
      exact_mod_cast h2
    positivity
  · by_cases hc : 20000 ≤ s.window.rms_sample_time_us
    · simp only [reducerStep, if_pos hc]
      exact le_add_of_nonneg_right (clamped_nonneg _)
    · simp only [reducerStep, if_neg hc]
      exact le_refl _
  · have hinv2 : AccInv (loopReduce (loopSample s inp)) :=
      accInv_loopReduce _ (accInv_loopSample _ _ hinv)
    show 0 ≤ ((loopReport (loopReduce (loopSample s inp)) inp).2.getD 0)
    by_cases hf : display_interval ≤
        inp.now - (loopReduce (loopSample s inp)).display_time
    · simp only [loopReport, if_pos hf, Option.getD_some]
      exact reporterDrain_nonneg _ hinv2.2.1
    · simp only [loopReport, if_neg hf, Option.getD_none]
      exact le_refl 0

theorem pipeline_nonneg_witness :
    Reachable (initState 0) ∧
    ((20000 ≤ (initState 0).window.rms_sample_time_us →
       0 < (((initState 0).window.rms_sample_time_us : ℝ) / 1000000)) ∧
     0 ≤ (initState 0).window.quadratic_sum_rms ∧
     (initState 0).acc.accumulated_current ≤
       (reducerStep (initState 0).window (initState 0).acc).2.accumulated_current ∧
     0 ≤ (initState 0).acc.accumulated_current ∧
     0 ≤ ((loopStep (initState 0) (LoopInput.mk 0 200 0 0)).2.getD 0)) :=
  ⟨Reachable.init 0, pipeline_nonneg _ _ (Reachable.init 0)⟩

/-! ## CSV record formatting (`appendToCSV`, lines 117-135)

`file.print(n)` on an unsigned integer prints its decimal digits;
`file.print(x, d)` on a floating value follows Arduino's `printFloat`:
print `-` for a negative value and continue with its absolute value, add a
rounding term `0.5 / 10^d`, print the integer part, a dot, then `d`
fractional digits extracted by repeated multiply-by-ten and truncation
(truncation equals floor here because the remainder is nonnegative). -/

/-- The character for a decimal digit value (`'0' + d`). -/
def digitChar (d : ℕ) : Char := Char.ofNat (48 + d)

/-- Decimal digit string of a natural number, most significant first. -/
def natDigits (n : ℕ) : List Char :=
  if _h : n < 10 then [digitChar n]
  else natDigits (n / 10) ++ [digitChar (n % 10)]
decreasing_by exact Nat.div_lt_self (by omega) (by omega)

/-- The `d` fractional digits printed by `printFloat`'s loop:
`remainder *= 10; toPrint = (unsigned int)remainder; remainder -= toPrint`. -/
def fracDigits : ℕ → ℚ → List Char
  | 0, _ => []
  | d + 1, r =>
    digitChar (⌊r * 10⌋).toNat ::
      fracDigits d (r * 10 - ((⌊r * 10⌋).toNat : ℚ))

/-- The sign prefix printed by `printFloat`. -/
def fmtSign (x : ℚ) : List Char := if x < 0 then ['-'] else []

/-- `printFloat` continues with the absolute value after the sign. -/
def fmtAbs (x : ℚ) : ℚ := if x < 0 then -x else x

/-- The value after adding `printFloat`'s rounding term `0.5 / 10^d`. -/
def fmtRounded (x : ℚ) (d : ℕ) : ℚ := fmtAbs x + 1 / (2 * 10 ^ d)

/-- `int_part = (unsigned long)number` (truncation = floor, value ≥ 0). -/
def fmtIntPart (x : ℚ) (d : ℕ) : ℕ := (⌊fmtRounded x d⌋).toNat

/-- `remainder = number - (double)int_part`. -/
def fmtRemainder (x : ℚ) (d : ℕ) : ℚ :=
  fmtRounded x d - (fmtIntPart x d : ℚ)

/-- Arduino `print(x, d)`: sign, integer part, `'.'`, `d` fractional
digits (the dot is omitted when `d = 0`). -/
def fmtFixed (x : ℚ) (d : ℕ) : List Char :=
  fmtSign x ++ natDigits (fmtIntPart x d) ++
    (if 0 < d then '.' :: fracDigits d (fmtRemainder x d) else [])

/-- Line 130: `heater ? "ON" : "OFF"`. -/
def onToken : List Char := ['O', 'N']

/-- See `onToken`. -/
def offToken : List Char := ['O', 'F', 'F']

/-- Lines 117-135: the characters of one CSV record line (the terminating
newline of `println` aside): timestamp in ms, a comma, timestamp in s, a
comma, the current with 5 decimals, a comma, the temperature with 2
decimals, a comma, and the heater token. -/
def appendToCSVLine (timestamp_ms time_s : ℕ) (current temperature : ℚ)
    (heater : Bool) : List Char :=
  natDigits timestamp_ms ++ [','] ++ natDigits time_s ++ [','] ++
    fmtFixed current 5 ++ [','] ++ fmtFixed temperature 2 ++ [','] ++
    (if heater then onToken else offToken)

/-- One step of splitting a character list at commas. -/
def consHead (c : Char) (acc : List (List Char)) : List (List Char) :=
  match acc with
  | [] => [[c]]
  | f :: rest => if c = ',' then [] :: f :: rest else (c :: f) :: rest

/-- Split a character list into its comma-separated fields. -/
def splitOnComma : List Char → List (List Char)
  | [] => [[]]
  | c :: cs => consHead c (splitOnComma cs)

/-- Length of the run of characters after the last `'.'`. -/
def fracPartLen (l : List Char) : ℕ :=
  (l.reverse.takeWhile (fun c => c != '.')).length

theorem digitChar_isDigit : ∀ d, d < 10 → (digitChar d).isDigit = true := by
  decide

theorem isDigit_ne_comma {c : Char} (h : c.isDigit = true) : c ≠ ',' := by
  intro he
  subst he
  exact absurd h (by decide)

theorem isDigit_ne_dot {c : Char} (h : c.isDigit = true) : c ≠ '.' := by
  intro he
  subst he
  exact absurd h (by decide)

theorem natDigits_digits (n : ℕ) : ∀ c ∈ natDigits n, c.isDigit = true := by
  induction n using Nat.strong_induction_on with
  | _ n ih =>
    rw [natDigits]
    split
    · intro c hc
      rw [List.mem_singleton] at hc
      subst hc
      exact digitChar_isDigit _ (by omega)
    · intro c hc
      rw [List.mem_append] at hc
      rcases hc with hc | hc
      · exact ih (n / 10) (Nat.div_lt_self (by omega) (by omega)) c hc
      · rw [List.mem_singleton] at hc
        subst hc
        exact digitChar_isDigit _ (Nat.mod_lt _ (by omega))

theorem fracDigits_digits (d : ℕ) :
    ∀ r : ℚ, 0 ≤ r → r < 1 → ∀ c ∈ fracDigits d r, c.isDigit = true := by
  induction d with
  | zero => intro r _ _ c hc; simp [fracDigits] at hc
  | succ k ih =>
    intro r h0 h1 c hc
    have hge : (0 : ℚ) ≤ r * 10 := by nlinarith
    have hlt10 : r * 10 < 10 := by nlinarith
    have hfl0 : 0 ≤ ⌊r * 10⌋ := Int.floor_nonneg.mpr hge
    have hcast : ((⌊r * 10⌋.toNat : ℕ) : ℚ) = ((⌊r * 10⌋ : ℤ) : ℚ) := by
      exact_mod_cast Int.toNat_of_nonneg hfl0
    rcases List.mem_cons.mp hc with hc | hc
    · subst hc
      apply digitChar_isDigit
      have hfl : ⌊r * 10⌋ < 10 := by
        have : ((10 : ℤ) : ℚ) = (10 : ℚ) := by norm_num
        exact Int.floor_lt.mpr (by rw [this]; exact hlt10)
      omega
    · have hle : ((⌊r * 10⌋ : ℤ) : ℚ) ≤ r * 10 := Int.floor_le _
      have hlt : r * 10 < ((⌊r * 10⌋ : ℤ) : ℚ) + 1 := Int.lt_floor_add_one _
      exact ih (r * 10 - ((⌊r * 10⌋).toNat : ℚ))
        (by rw [hcast]; linarith) (by rw [hcast]; linarith) c hc

theorem fracDigits_length (d : ℕ) :
    ∀ r : ℚ, (fracDigits d r).length = d := by
  induction d with
  | zero => intro r; rfl
  | succ k ih => intro r; simp [fracDigits, ih]

theorem fmtRounded_nonneg (x : ℚ) (d : ℕ) : 0 ≤ fmtRounded x d := by
  unfold fmtRounded fmtAbs
  have h : (0 : ℚ) < 1 / (2 * 10 ^ d) := by positivity
  rcases lt_or_le x 0 with h1 | h1
  · rw [if_pos h1]; linarith
  · rw [if_neg (not_lt.mpr h1)]; linarith

theorem fmtIntPart_cast (x : ℚ) (d : ℕ) :
    ((fmtIntPart x d : ℕ) : ℚ) = ((⌊fmtRounded x d⌋ : ℤ) : ℚ) := by
  unfold fmtIntPart
  have h : 0 ≤ ⌊fmtRounded x d⌋ := Int.floor_nonneg.mpr (fmtRounded_nonneg x d)
  exact_mod_cast Int.toNat_of_nonneg h

theorem fmtRemainder_nonneg (x : ℚ) (d : ℕ) : 0 ≤ fmtRemainder x d := by
  unfold fmtRemainder
  rw [fmtIntPart_cast]
  have h := Int.floor_le (fmtRounded x d)
  linarith

theorem fmtRemainder_lt_one (x : ℚ) (d : ℕ) : fmtRemainder x d < 1 := by
  unfold fmtRemainder
  rw [fmtIntPart_cast]
  have h := Int.lt_floor_add_one (fmtRounded x d)
  linarith

theorem natDigits_no_comma (n : ℕ) : ∀ c ∈ natDigits n, c ≠ ',' :=
  fun c hc => isDigit_ne_comma (natDigits_digits n c hc)

theorem fmtFixed_no_comma (x : ℚ) (d : ℕ) : ∀ c ∈ fmtFixed x d, c ≠ ',' := by
  intro c hc
  unfold fmtFixed at hc
  rw [List.append_assoc, List.mem_append, List.mem_append] at hc
  rcases hc with hc | hc | hc
  · unfold fmtSign at hc
    split at hc
    · rw [List.mem_singleton] at hc
      subst hc
      decide
    · simp at hc
  · exact isDigit_ne_comma (natDigits_digits _ c hc)
  · split at hc
    · rcases List.mem_cons.mp hc with hc | hc
      · subst hc
        decide
      · exact isDigit_ne_comma
          (fracDigits_digits d _ (fmtRemainder_nonneg x d)
            (fmtRemainder_lt_one x d) c hc)
    · simp at hc

theorem splitOnComma_ne_nil (l : List Char) : splitOnComma l ≠ [] := by
  cases l with
  | nil => simp [splitOnComma]
  | cons c cs =>
    simp only [splitOnComma, consHead]
    rcases splitOnComma cs with _ | ⟨f, rest⟩
    · simp
    · by_cases hc : c = ',' <;> simp [hc]

theorem splitOnComma_single (xs : List Char) (h : ∀ c ∈ xs, c ≠ ',') :
    splitOnComma xs = [xs] := by
  induction xs with
  | nil => rfl
  | cons a as ih =>
    rw [splitOnComma, ih (fun c hc => h c (List.mem_cons_of_mem a hc))]
    simp [consHead, h a (List.mem_cons_self a as)]

theorem splitOnComma_comma (l : List Char) :
    splitOnComma (',' :: l) = [] :: splitOnComma l := by
  rw [splitOnComma]
  unfold consHead
  rcases h : splitOnComma l with _ | ⟨f, rest⟩
  · exact absurd h (splitOnComma_ne_nil l)
  · simp

theorem splitOnComma_append (xs : List Char) (h : ∀ c ∈ xs, c ≠ ',') :
    ∀ l f rest, splitOnComma l = f :: rest →
      splitOnComma (xs ++ l) = (xs ++ f) :: rest := by
  induction xs with
  | nil => intro l f rest hl; simpa using hl
  | cons a as ih =>
    intro l f rest hl
    rw [List.cons_append, splitOnComma,
      ih (fun c hc => h c (List.mem_cons_of_mem a hc)) l f rest hl]
    simp [consHead, h a (List.mem_cons_self a as)]

theorem splitOnComma_field (xs l : List Char) (h : ∀ c ∈ xs, c ≠ ',') :
    splitOnComma (xs ++ ',' :: l) = xs :: splitOnComma l := by
  rcases hl : splitOnComma l with _ | ⟨f, rest⟩
  · exact absurd hl (splitOnComma_ne_nil l)
  · rw [splitOnComma_append xs h (',' :: l) [] (splitOnComma l)
      (by rw [splitOnComma_comma]), List.append_nil, hl]

theorem takeWhile_until_dot (xs ys : List Char) (h : ∀ c ∈ xs, c ≠ '.') :
    (xs ++ '.' :: ys).takeWhile (fun c => c != '.') = xs := by
  induction xs with
  | nil => simp [List.takeWhile_cons]
  | cons a as ih =>
    have ha : (a != '.') = true := by
      simpa using h a (List.mem_cons_self a as)
    rw [List.cons_append, List.takeWhile_cons, ha]
    simp only [if_true]
    rw [ih (fun c hc => h c (List.mem_cons_of_mem a hc))]

theorem fmtFixed_fracPartLen (x : ℚ) (d : ℕ) (hd : 0 < d) :
    fracPartLen (fmtFixed x d) = d := by
  unfold fracPartLen fmtFixed
  rw [if_pos hd]
  have hdigs : ∀ c ∈ (fracDigits d (fmtRemainder x d)).reverse, c ≠ '.' := by
    intro c hc
    rw [List.mem_reverse] at hc
    exact isDigit_ne_dot
      (fracDigits_digits d _ (fmtRemainder_nonneg x d)
        (fmtRemainder_lt_one x d) c hc)
  rw [List.reverse_append, List.reverse_cons, List.append_assoc,
    List.singleton_append, takeWhile_until_dot _ _ hdigs,
    List.length_reverse, fracDigits_length]

/-- C9. Every persisted record line splits at commas into exactly five
fields, in order: the decimal millisecond timestamp, the decimal second
timestamp, the current formatted with 5 decimal digits, the temperature
formatted with 2 decimal digits, and the literal token `ON` or `OFF`. -/
theorem appendToCSV_five_fields (timestamp_ms time_s : ℕ)
    (current temperature : ℚ) (heater : Bool) :
    splitOnComma (appendToCSVLine timestamp_ms time_s current temperature heater) =
      [natDigits timestamp_ms, natDigits time_s, fmtFixed current 5,
        fmtFixed temperature 2, if heater then onToken else offToken] ∧
    (splitOnComma (appendToCSVLine timestamp_ms time_s current temperature heater)).length = 5 ∧
    fracPartLen (fmtFixed current 5) = 5 ∧
    fracPartLen (fmtFixed temperature 2) = 2 ∧
    (∀ c ∈ natDigits timestamp_ms, c.isDigit = true) ∧
    (∀ c ∈ natDigits time_s, c.isDigit = true) ∧
    ((if heater then onToken else offToken) = ['O', 'N'] ∨
      (if heater then onToken else offToken) = ['O', 'F', 'F']) := by
  have hE : ∀ c ∈ (if heater then onToken else offToken), c ≠ ',' := by
    cases heater <;> decide
  have hsplit : splitOnComma
      (appendToCSVLine timestamp_ms time_s current temperature heater) =
      [natDigits timestamp_ms, natDigits time_s, fmtFixed current 5,
        fmtFixed temperature 2, if heater then onToken else offToken] := by
    have hassoc : appendToCSVLine timestamp_ms time_s current temperature heater =
        natDigits timestamp_ms ++ ',' :: (natDigits time_s ++ ',' ::
          (fmtFixed current 5 ++ ',' :: (fmtFixed temperature 2 ++ ',' ::
            (if heater then onToken else offToken)))) := by
      simp [appendToCSVLine, List.append_assoc]
    rw [hassoc, splitOnComma_field _ _ (natDigits_no_comma timestamp_ms),
      splitOnComma_field _ _ (natDigits_no_comma time_s),
      splitOnComma_field _ _ (fmtFixed_no_comma current 5),
      splitOnComma_field _ _ (fmtFixed_no_comma temperature 2),
      splitOnComma_single _ hE]
  refine ⟨hsplit, by rw [hsplit]; rfl,
    fmtFixed_fracPartLen _ _ (by omega), fmtFixed_fracPartLen _ _ (by omega),
    natDigits_digits _, natDigits_digits _, ?_⟩
  cases heater
  · exact Or.inr rfl
  · exact Or.inl rfl

end CsvOutput
